import Mathlib

/-!
Shallow embedding of the model-building pass of M2-ISA-R
(`src/architecture_model_builder.py`, class `ArchitectureModelBuilder`).

Python dictionaries are embedded as insertion-ordered association lists:
`alistInsert` updates an existing key in place (keeping its position) and
appends a fresh key at the end, exactly like `d[k] = v`; `alistGet` is
`d.get(k)`; `alistMerge` is `{**a, **b}`.

The entity classes live in `model_classes`, which is imported by the
builder but is not part of the sources here; those records and the few
derived computations on them (instruction `(code, mask)` derivation,
resolved lengths) are modelled from the specification and marked as such
in their doc comments.  Errors raised by the builder (`ValueError` on a
duplicate name, a failed lookup on an absent reference) are embedded as
`Except BuildError`; an error result carries no state, matching the
spec's rule that a fatal error aborts the pass with no partial output.
-/

/-- A value that is either a literal integer or a reference (by name) to a
previously declared `Constant`.  `get_constant_or_val` returns the live
`Constant` object in Python; since constants are never removed and are only
ever updated in place, holding the name and resolving through the current
constants table is observationally the same. -/
inductive RefOrVal where
  | val (n : Int)
  | ref (name : String)
deriving DecidableEq, Repr

/-- Modelled from the spec: `model_classes.Constant` (not under `src/`) — a
typed record of name, value and attribute set. -/
structure Constant where
  name : String
  value : Int
  attributes : List String
deriving DecidableEq, Repr

/-- Modelled from the spec: `model_classes.RangeSpec` (not under `src/`) — a
generic closed interval; the builder constructs it with two arguments
(`RangeSpec(i, i)`, `RangeSpec(0, 0)`) or three
(`RangeSpec(length_base, 0, length_power)`), so the power defaults to 1. -/
structure RangeSpec where
  upper_base : RefOrVal
  lower_base : RefOrVal
  upper_power : RefOrVal := .val 1
deriving DecidableEq, Repr

/-- The alias index as it reaches `register_alias`: either a bare single
index or an already-reduced `RangeSpec`. -/
inductive IndexSpec where
  | single (i : Int)
  | range (r : RangeSpec)
deriving DecidableEq, Repr

/-- Modelled from the spec: `model_classes.AddressSpace` (not under
`src/`). -/
structure AddressSpace where
  name : String
  length_base : RefOrVal
  length_power : RefOrVal
  size : RefOrVal
  attributes : List String
deriving DecidableEq, Repr

/-- Modelled from the spec: `model_classes.Register` (not under `src/`);
`initval` is the optional default value assigned later by
`register_default`. -/
structure Register where
  name : String
  attributes : List String
  initval : Option RefOrVal
  size : RefOrVal
deriving DecidableEq, Repr

/-- Modelled from the spec: `model_classes.RegisterFile` (not under
`src/`). -/
structure RegisterFile where
  name : String
  range : RangeSpec
  attributes : List String
  size : RefOrVal
deriving DecidableEq, Repr

/-- The resolved "actual register" reference held by a `RegisterAlias`: the
Python object reference is identified by the table it was found in plus its
name, since entities are never removed from their tables. -/
inductive ActualRef where
  | file (name : String)
  | reg (name : String)
  | alias (name : String)
deriving DecidableEq, Repr

/-- The normalisation of an alias index: a bare index `i` becomes the
degenerate `RangeSpec (i, i)` with equal bounds, an index already given as
a range is kept. -/
def normalizeIndex : IndexSpec → RangeSpec
  | .range r => r
  | .single i => ⟨.val i, .val i, .val 1⟩

/-- Modelled from the spec: `model_classes.RegisterAlias` (not under
`src/`) — per §3 the entity carries "an index within the actual register
(normalized to a RangeSpec)", so its index field is a `RangeSpec`. -/
structure RegisterAlias where
  name : String
  actual : ActualRef
  index : RangeSpec
  attributes : List String
  initval : Option RefOrVal
  size : RefOrVal
deriving DecidableEq, Repr

/-- Modelled from the spec: the `model_classes.RegisterAlias` constructor
(not under `src/`).  The builder passes the index argument exactly as
received — possibly a bare single index — and per §3 the entity stores it
"normalized to a RangeSpec" (a "single index normalized to a degenerate
interval with equal bounds"), so the constructor performs that
normalisation. -/
def RegisterAlias.make (name : String) (actual : ActualRef) (index : IndexSpec)
    (attributes : List String) (initval : Option RefOrVal) (size : RefOrVal) :
    RegisterAlias :=
  ⟨name, actual, normalizeIndex index, attributes, initval, size⟩

/-- Modelled from the spec: `model_classes.Memory` (not under `src/`) —
name, RangeSpec, size, attributes and an ordered list of child Memory
nodes, populated only by alias creation. -/
inductive Memory where
  | mk (name : String) (range : RangeSpec) (size : RefOrVal)
       (attributes : List String) (children : List Memory)

def Memory.name : Memory → String
  | .mk n _ _ _ _ => n

def Memory.range : Memory → RangeSpec
  | .mk _ r _ _ _ => r

def Memory.size : Memory → RefOrVal
  | .mk _ _ s _ _ => s

def Memory.attributes : Memory → List String
  | .mk _ _ _ a _ => a

def Memory.children : Memory → List Memory
  | .mk _ _ _ _ cs => cs

/-- `parent_mem.children.append(m)`. -/
def Memory.addChild : Memory → Memory → Memory
  | .mk n r s a cs, m => .mk n r s a (cs ++ [m])

/-- The error taxonomy of the pass: a duplicate name in a uniqueness
namespace, or a reference to a name absent from the expected namespace. -/
inductive BuildError where
  | DuplicateDeclarationError (name : String)
  | UnresolvedReferenceError (name : String)
deriving DecidableEq, Repr

/-- One element of an instruction encoding: a fixed-bit literal (`BitVal`,
carrying width − 1 and the literal value, as produced from a binary-literal
token) or a named variable field (`BitField`, carrying its high/low bit
indices). -/
inductive EncElem where
  | bitval (lenMinusOne : Nat) (value : Nat)
  | bitfield (name : String) (hi : Nat) (lo : Nat)
deriving DecidableEq, Repr

/-- Modelled from the spec: `model_classes.Instruction` (not under
`src/`) — name, attributes, encoding, disassembly template, opaque
operation payload, and the derived `(code, mask)` fields. -/
structure Instruction where
  name : String
  attributes : List String
  encoding : List EncElem
  disass : String
  operation : String
  code : Nat
  mask : Nat
deriving DecidableEq, Repr

/-- Association-list lookup, `d.get(k)`: first entry with the key wins. -/
def alistGet {K V : Type} [DecidableEq K] : List (K × V) → K → Option V
  | [], _ => none
  | (k, v) :: rest, key => if k = key then some v else alistGet rest key

/-- Association-list store, `d[k] = v`: update an existing key in place
(keeping its position), append a fresh key at the end. -/
def alistInsert {K V : Type} [DecidableEq K] : List (K × V) → K → V → List (K × V)
  | [], key, value => [(key, value)]
  | (k, v) :: rest, key, value =>
    if k = key then (k, value) :: rest else (k, v) :: alistInsert rest key value

/-- `k in d`. -/
def alistContains {K V : Type} [DecidableEq K] (l : List (K × V)) (k : K) : Bool :=
  (alistGet l k).isSome

/-- In-place update of the entry under `k`, if present (the Python code
mutates the object found in the table). -/
def alistModify {K V : Type} [DecidableEq K] : List (K × V) → K → (V → V) → List (K × V)
  | [], _, _ => []
  | (k, v) :: rest, key, f =>
    if k = key then (k, f v) :: alistModify rest key f
    else (k, v) :: alistModify rest key f

/-- Python dict merge `{**a, **b}`: start from `a` and store every entry of
`b` in order. -/
def alistMerge {K V : Type} [DecidableEq K] (a b : List (K × V)) : List (K × V) :=
  b.foldl (fun acc p => alistInsert acc p.1 p.2) a

theorem alistGet_insert {K V : Type} [DecidableEq K] (l : List (K × V)) (k : K) (v : V)
    (k' : K) :
    alistGet (alistInsert l k v) k' = if k = k' then some v else alistGet l k' := by
  induction l with
  | nil => simp [alistInsert, alistGet]
  | cons p rest ih =>
    obtain ⟨a, b⟩ := p
    by_cases hak : a = k
    · subst hak
      simp only [alistInsert, if_pos rfl, alistGet]
      by_cases hk' : a = k' <;> simp [hk']
    · simp only [alistInsert, if_neg hak]
      by_cases hak' : a = k'
      · subst hak'
        have : ¬ (k = a) := fun h => hak h.symm
        simp [alistGet, this]
      · simp [alistGet, hak', ih]

theorem alistContains_insert_self {K V : Type} [DecidableEq K] (l : List (K × V)) (k : K)
    (v : V) : alistContains (alistInsert l k v) k = true := by
  simp [alistContains, alistGet_insert]

theorem alistGet_eq_none_of_not_mem {K V : Type} [DecidableEq K] (l : List (K × V)) (k : K)
    (h : ∀ p ∈ l, p.1 ≠ k) : alistGet l k = none := by
  induction l with
  | nil => rfl
  | cons p rest ih =>
    obtain ⟨a, b⟩ := p
    have ha : a ≠ k := h (a, b) (by simp)
    simp only [alistGet, if_neg ha]
    exact ih (fun q hq => h q (by simp [hq]))

theorem not_mem_of_alistGet_eq_none {K V : Type} [DecidableEq K] (l : List (K × V)) (k : K)
    (h : alistGet l k = none) : ∀ p ∈ l, p.1 ≠ k := by
  induction l with
  | nil => intro p hp; cases hp
  | cons q rest ih =>
    obtain ⟨a, b⟩ := q
    intro p hp
    by_cases hak : a = k
    · subst hak
      simp [alistGet] at h
    · simp only [alistGet, if_neg hak] at h
      rcases List.mem_cons.mp hp with h1 | h2
      · subst h1; exact hak
      · exact ih h p h2

/-- The builder's accumulated state: one insertion-ordered table per entity
kind (`__constants`, `__address_spaces`, `__registers`, `__register_file`,
`__register_alias`, `__instructions`, `__memories`, `__memory_aliases`), the
list of contributing instruction-set names (the keys of `__read_types`),
the diagnostics printed so far, and the current-instruction index. -/
structure BuilderState where
  constants : List (String × Constant)
  address_spaces : List (String × AddressSpace)
  registers : List (String × Register)
  register_file : List (String × RegisterFile)
  register_alias : List (String × RegisterAlias)
  instructions : List ((Nat × Nat) × Instruction)
  memories : List (String × Memory)
  memory_aliases : List (String × Memory)
  read_types : List String
  warnings : List String
  current_instr_idx : Nat

/-- `ArchitectureModelBuilder.__init__`: every table starts empty. -/
def initState : BuilderState :=
  ⟨[], [], [], [], [], [], [], [], [], [], 0⟩

/-- `get_constant_or_val`: a literal integer is returned unchanged; a name
is looked up in the Constant namespace (the Python code indexes
`__constants` directly, so an absent name fails the lookup). -/
def get_constant_or_val (st : BuilderState) : RefOrVal → Except BuildError RefOrVal
  | .val n => .ok (.val n)
  | .ref nm =>
    match alistGet st.constants nm with
    | some _ => .ok (.ref nm)
    | none => .error (.UnresolvedReferenceError nm)

/-- `constant_decl`: fails on a duplicate name, otherwise registers a new
`Constant` with an empty attribute set. -/
def constant_decl (st : BuilderState) (name : String) (default_value : Int) :
    Except BuildError (Constant × BuilderState) :=
  if alistContains st.constants name then
    .error (.DuplicateDeclarationError name)
  else
    let c : Constant := ⟨name, default_value, []⟩
    .ok (c, { st with constants := alistInsert st.constants name c })

/-- `constant_def`: if the name exists, the existing entity's value and
attributes are updated in place; otherwise a new `Constant` is registered.
It never fails. -/
def constant_def (st : BuilderState) (name : String) (value : Int)
    (attributes : List String) : Except BuildError (Constant × BuilderState) :=
  match alistGet st.constants name with
  | some c0 =>
    let c : Constant := { c0 with value := value, attributes := attributes }
    .ok (c, { st with constants := alistInsert st.constants name c })
  | none =>
    let c : Constant := ⟨name, value, attributes⟩
    .ok (c, { st with constants := alistInsert st.constants name c })

/-- `address_space`: duplicate check on the AddressSpace namespace, then
resolution of size, length base and length power (the power defaults to 1
when absent), then registration of the `AddressSpace` and of its paired
`Memory` view under the same name. -/
def address_space (st : BuilderState) (name : String) (size : RefOrVal)
    (length_base : RefOrVal) (length_power : Option RefOrVal) (attribs : List String) :
    Except BuildError (AddressSpace × BuilderState) :=
  if alistContains st.address_spaces name then
    .error (.DuplicateDeclarationError name)
  else
    match get_constant_or_val st size with
    | .error e => .error e
    | .ok size =>
      match get_constant_or_val st length_base with
      | .error e => .error e
      | .ok length_base =>
        match (match length_power with
               | some lp => get_constant_or_val st lp
               | none => .ok (RefOrVal.val 1)) with
        | .error e => .error e
        | .ok length_power =>
          let a : AddressSpace := ⟨name, length_base, length_power, size, attribs⟩
          let m : Memory := .mk name ⟨length_base, .val 0, length_power⟩ size attribs []
          .ok (a, { st with
            address_spaces := alistInsert st.address_spaces name a,
            memories := alistInsert st.memories name m })

/-- `register`: duplicate check on the Register namespace, size resolution,
then registration of the `Register` and of its paired `Memory` view with a
degenerate `RangeSpec(0, 0)`. -/
def register (st : BuilderState) (name : String) (size : RefOrVal)
    (attributes : List String) : Except BuildError (Register × BuilderState) :=
  if alistContains st.registers name then
    .error (.DuplicateDeclarationError name)
  else
    match get_constant_or_val st size with
    | .error e => .error e
    | .ok size =>
      let r : Register := ⟨name, attributes, none, size⟩
      let m : Memory := .mk name ⟨.val 0, .val 0, .val 1⟩ size attributes []
      .ok (r, { st with
        registers := alistInsert st.registers name r,
        memories := alistInsert st.memories name m })

/-- `register_file`: duplicate check on the RegisterFile namespace, size
resolution, then registration of the `RegisterFile` and of its paired
`Memory` view sharing the declared range. -/
def register_file (st : BuilderState) (range : RangeSpec) (name : String)
    (size : RefOrVal) (attributes : List String) :
    Except BuildError (RegisterFile × BuilderState) :=
  if alistContains st.register_file name then
    .error (.DuplicateDeclarationError name)
  else
    match get_constant_or_val st size with
    | .error e => .error e
    | .ok size =>
      let r : RegisterFile := ⟨name, range, attributes, size⟩
      let m : Memory := .mk name range size attributes []
      .ok (r, { st with
        register_file := alistInsert st.register_file name r,
        memories := alistInsert st.memories name m })

/-- The actual-register probe of `register_alias`:
`__register_file.get(actual) or __registers.get(actual) or
__register_alias.get(actual)` — first table containing the name wins. -/
def resolveActual (st : BuilderState) (actual : String) : Option ActualRef :=
  if alistContains st.register_file actual then some (.file actual)
  else if alistContains st.registers actual then some (.reg actual)
  else if alistContains st.register_alias actual then some (.alias actual)
  else none

/-- The parent-memory probe of `register_alias`:
`__memories.get(actual) or __memory_aliases.get(actual)`. -/
def probeParentMem (st : BuilderState) (actual : String) : Option Memory :=
  match alistGet st.memories actual with
  | some m => some m
  | none => alistGet st.memory_aliases actual

/-- `register_alias`: duplicate check on the RegisterAlias namespace; the
actual register is resolved by probing RegisterFile, then Register, then
RegisterAlias (failing when absent); the size is resolved; the
`RegisterAlias` is constructed from the index exactly as received and
registered; the handler then normalises the index itself, the parent
Memory node is located by probing the Memory table then the Memory-alias
table, the new Memory view is appended to its children, and finally the
view is stored in the Memory-alias table under the alias's name. -/
def register_alias (st : BuilderState) (name : String) (size : RefOrVal)
    (actual : String) (index : IndexSpec) (attributes : List String) :
    Except BuildError (RegisterAlias × BuilderState) :=
  if alistContains st.register_alias name then
    .error (.DuplicateDeclarationError name)
  else
    match resolveActual st actual with
    | none => .error (.UnresolvedReferenceError actual)
    | some actual_reg =>
      match get_constant_or_val st size with
      | .error e => .error e
      | .ok size =>
        let r : RegisterAlias := RegisterAlias.make name actual_reg index attributes none size
        let st1 := { st with register_alias := alistInsert st.register_alias name r }
        let index := normalizeIndex index
        let m : Memory := .mk name index size attributes []
        match alistGet st1.memories actual with
        | some _ =>
          .ok (r, { st1 with
            memories := alistModify st1.memories actual (fun pm => pm.addChild m),
            memory_aliases := alistInsert st1.memory_aliases name m })
        | none =>
          match alistGet st1.memory_aliases actual with
          | some _ =>
            .ok (r, { st1 with
              memory_aliases :=
                alistInsert (alistModify st1.memory_aliases actual (fun pm => pm.addChild m))
                  name m })
          | none => .error (.UnresolvedReferenceError actual)

/-- `register_default`: probes the RegisterAlias table before the plain
Register table, fails when the name is in neither, then resolves the value
and mutates the target's stored default in place.  The Python handler ends
with `raise Discard`, contributing no tree value, so its embedded result is
the updated state alone. -/
def register_default (st : BuilderState) (name : String) (value_or_ref : RefOrVal) :
    Except BuildError BuilderState :=
  match alistGet st.register_alias name with
  | some r =>
    match get_constant_or_val st value_or_ref with
    | .error e => .error e
    | .ok v =>
      .ok { st with
        register_alias := alistInsert st.register_alias name ({ r with initval := some v }) }
  | none =>
    match alistGet st.registers name with
    | some r =>
      match get_constant_or_val st value_or_ref with
      | .error e => .error e
      | .ok v =>
        .ok { st with
          registers := alistInsert st.registers name ({ r with initval := some v }) }
    | none => .error (.UnresolvedReferenceError name)

/-- Modelled from the spec: the derivation of the `(code, mask)` identity
performed by `model_classes.Instruction` (not under `src/`) — walking the
encoding from its least-significant (last) element, combine each BitVal's
value and width into the fixed-bit accumulators, and leave the positions of
each BitField as don't-care. -/
def deriveCodeMask (enc : List EncElem) : Nat × Nat :=
  let step : (Nat × Nat × Nat) → EncElem → (Nat × Nat × Nat) := fun acc e =>
    match acc, e with
    | (pos, code, mask), .bitval l v =>
      (pos + (l + 1), code + v % 2 ^ (l + 1) * 2 ^ pos, mask + (2 ^ (l + 1) - 1) * 2 ^ pos)
    | (pos, code, mask), .bitfield _ hi lo =>
      (pos + (hi + 1 - lo), code, mask)
  let r := enc.reverse.foldl step (0, 0, 0)
  (r.2.1, r.2.2)

/-- `instruction`: builds the `Instruction`, computes its `(code, mask)`
key, prints a warning when the key is already present, stores the
instruction under that key (overwriting any earlier one) and advances the
current-instruction index.  It never fails. -/
def instruction (st : BuilderState) (name : String) (attributes : List String)
    (encoding : List EncElem) (disass : String) (operation : String) :
    Instruction × BuilderState :=
  let cm := deriveCodeMask encoding
  let i : Instruction := ⟨name, attributes, encoding, disass, operation, cm.1, cm.2⟩
  let ws :=
    match alistGet st.instructions cm with
    | some old =>
      st.warnings ++ ["WARN: overwriting instruction " ++ old.name ++ " with " ++ name]
    | none => st.warnings
  (i, { st with
    instructions := alistInsert st.instructions cm i,
    warnings := ws,
    current_instr_idx := st.current_instr_idx + 1 })

/-- Modelled from the spec: `model_classes.CoreDef` (not under `src/`) —
the terminal merged model, packaging every namespace table accumulated so
far plus the list of contributing instruction-set names. -/
structure CoreDef where
  name : String
  contributing_types : List String
  template : String
  constants : List (String × Constant)
  address_spaces : List (String × AddressSpace)
  register_file : List (String × RegisterFile)
  registers : List (String × Register)
  register_alias : List (String × RegisterAlias)
  memories : List (String × Memory)
  memory_aliases : List (String × Memory)
  instructions : List ((Nat × Nat) × Instruction)

/-- One entry of the CoreDef's unified register view, tagged with the
namespace it came from. -/
inductive RegView where
  | file (r : RegisterFile)
  | reg (r : Register)
  | alias (r : RegisterAlias)
deriving DecidableEq, Repr

/-- Modelled from the spec: the CoreDef's register view is the union of the
register-file, plain-register and register-alias tables, merged in that
order with dict-merge semantics (a later-merged table wins on a name
collision) — the merge the builder computes at `core_def` time as
`{**__register_file, **__registers, **__register_alias}`. -/
def CoreDef.register_view (c : CoreDef) : List (String × RegView) :=
  alistMerge
    (alistMerge (c.register_file.map (fun p => (p.1, RegView.file p.2)))
      (c.registers.map (fun p => (p.1, RegView.reg p.2))))
    (c.register_alias.map (fun p => (p.1, RegView.alias p.2)))

/-- `core_def`: packages every namespace table accumulated so far, plus the
list of contributing instruction-set names, into the `CoreDef`. -/
def core_def (st : BuilderState) (name : String) (template : String) : CoreDef :=
  ⟨name, st.read_types, template, st.constants, st.address_spaces, st.register_file,
    st.registers, st.register_alias, st.memories, st.memory_aliases, st.instructions⟩

/-- Resolution of a literal-or-reference to its integer value: a name is
looked up in the Constant namespace and replaced by that constant's
(current) value. -/
def resolveVal (consts : List (String × Constant)) : RefOrVal → Option Int
  | .val n => some n
  | .ref nm => (alistGet consts nm).map (fun c => c.value)

/-- Modelled from the spec: the resolved length of an `AddressSpace`.  The
spec's scenario (a length base referring to the constant `WLEN = 32` with
power 1 resolving to length 32, and a power that defaults to 1 when
absent) fixes the resolution as the base count raised to the given power;
a literal power-of-two scale factor `2 ^ power` would instead double every
default-power length and yield 64 in the scenario. -/
def AddressSpace.resolvedLength (consts : List (String × Constant))
    (a : AddressSpace) : Option Int :=
  match resolveVal consts a.length_base, resolveVal consts a.length_power with
  | some b, some p => some (b ^ p.toNat)
  | _, _ => none

/-- Modelled from the spec: the resolved length of a `Memory` view, derived
from its range the same way an address-space length is derived from its
base and power (the builder stores the address-space length base and power
as the range's upper base and upper power). -/
def Memory.resolvedLength (consts : List (String × Constant)) (m : Memory) : Option Int :=
  match resolveVal consts m.range.upper_base, resolveVal consts m.range.upper_power with
  | some b, some p => some (b ^ p.toNat)
  | _, _ => none

/-- Extracts the state from a successful entity-producing reduction,
falling back to a default state on an error; used only to write down
concrete example states. -/
def stepOk {α : Type} (r : Except BuildError (α × BuilderState)) (d : BuilderState) :
    BuilderState :=
  match r with
  | .ok (_, s) => s
  | .error _ => d

theorem alistGet_map_value {K V W : Type} [DecidableEq K] (l : List (K × V)) (f : V → W)
    (k : K) :
    alistGet (l.map (fun p => (p.1, f p.2))) k = (alistGet l k).map f := by
  induction l with
  | nil => rfl
  | cons p rest ih =>
    obtain ⟨a, b⟩ := p
    by_cases hak : a = k <;> simp [alistGet, hak, ih]

theorem alistGet_merge {K V : Type} [DecidableEq K] (a b : List (K × V)) (k : K)
    (hb : (b.map Prod.fst).Nodup) :
    alistGet (alistMerge a b) k =
      match alistGet b k with
      | some v => some v
      | none => alistGet a k := by
  induction b generalizing a with
  | nil => rfl
  | cons p rest ih =>
    obtain ⟨k0, v0⟩ := p
    simp only [List.map_cons, List.nodup_cons] at hb
    obtain ⟨hk0, hrest⟩ := hb
    have hmerge : alistMerge a ((k0, v0) :: rest) = alistMerge (alistInsert a k0 v0) rest := rfl
    rw [hmerge, ih (alistInsert a k0 v0) hrest]
    by_cases hk : k0 = k
    · subst hk
      have hnone : alistGet rest k0 = none := by
        apply alistGet_eq_none_of_not_mem
        intro p hp hpk
        exact hk0 (hpk ▸ List.mem_map_of_mem Prod.fst hp)
      simp [alistGet, hnone, alistGet_insert]
    · simp only [alistGet, if_neg hk]
      cases hr : alistGet rest k with
      | some v => simp
      | none => simp [alistGet_insert, hk]

theorem constant_decl_ok (st : BuilderState) (n : String) (v : Int) (c : Constant)
    (st' : BuilderState) (h : constant_decl st n v = .ok (c, st')) :
    c = ⟨n, v, []⟩ ∧
      st' = { st with constants := alistInsert st.constants n ⟨n, v, []⟩ } := by
  unfold constant_decl at h
  by_cases hc : alistContains st.constants n
  · simp [hc] at h
  · simp only [hc, Bool.false_eq_true, if_false, Except.ok.injEq, Prod.mk.injEq] at h
    exact ⟨h.1.symm, h.2.symm⟩

theorem address_space_ok (st : BuilderState) (n : String) (sz lb : RefOrVal)
    (lp : Option RefOrVal) (ats : List String) (a : AddressSpace) (st' : BuilderState)
    (h : address_space st n sz lb lp ats = .ok (a, st')) :
    ∃ sz' lb' lp',
      get_constant_or_val st sz = .ok sz' ∧
      get_constant_or_val st lb = .ok lb' ∧
      (match lp with
       | some l => get_constant_or_val st l
       | none => .ok (RefOrVal.val 1)) = .ok lp' ∧
      a = ⟨n, lb', lp', sz', ats⟩ ∧
      st' = { st with
        address_spaces := alistInsert st.address_spaces n ⟨n, lb', lp', sz', ats⟩,
        memories :=
          alistInsert st.memories n (.mk n ⟨lb', .val 0, lp'⟩ sz' ats []) } := by
  unfold address_space at h
  by_cases hc : alistContains st.address_spaces n
  · simp [hc] at h
  · simp only [hc, Bool.false_eq_true, if_false] at h
    cases hsz : get_constant_or_val st sz with
    | error e => rw [hsz] at h; cases h
    | ok sz' =>
      rw [hsz] at h
      cases hlb : get_constant_or_val st lb with
      | error e => rw [hlb] at h; cases h
      | ok lb' =>
        rw [hlb] at h
        cases hlp : (match lp with
                     | some l => get_constant_or_val st l
                     | none => .ok (RefOrVal.val 1)) with
        | error e => rw [hlp] at h; cases h
        | ok lp' =>
          rw [hlp] at h
          simp only [Except.ok.injEq, Prod.mk.injEq] at h
          exact ⟨sz', lb', lp', rfl, rfl, rfl, h.1.symm, h.2.symm⟩

theorem register_ok (st : BuilderState) (n : String) (sz : RefOrVal) (ats : List String)
    (r : Register) (st' : BuilderState) (h : register st n sz ats = .ok (r, st')) :
    ∃ sz',
      get_constant_or_val st sz = .ok sz' ∧
      r = ⟨n, ats, none, sz'⟩ ∧
      st' = { st with
        registers := alistInsert st.registers n ⟨n, ats, none, sz'⟩,
        memories :=
          alistInsert st.memories n (.mk n ⟨.val 0, .val 0, .val 1⟩ sz' ats []) } := by
  unfold register at h
  by_cases hc : alistContains st.registers n
  · simp [hc] at h
  · simp only [hc, Bool.false_eq_true, if_false] at h
    cases hsz : get_constant_or_val st sz with
    | error e => rw [hsz] at h; cases h
    | ok sz' =>
      rw [hsz] at h
      simp only [Except.ok.injEq, Prod.mk.injEq] at h
      exact ⟨sz', rfl, h.1.symm, h.2.symm⟩

theorem register_file_ok (st : BuilderState) (rg : RangeSpec) (n : String)
    (sz : RefOrVal) (ats : List String) (r : RegisterFile) (st' : BuilderState)
    (h : register_file st rg n sz ats = .ok (r, st')) :
    ∃ sz',
      get_constant_or_val st sz = .ok sz' ∧
      r = ⟨n, rg, ats, sz'⟩ ∧
      st' = { st with
        register_file := alistInsert st.register_file n ⟨n, rg, ats, sz'⟩,
        memories := alistInsert st.memories n (.mk n rg sz' ats []) } := by
  unfold register_file at h
  by_cases hc : alistContains st.register_file n
  · simp [hc] at h
  · simp only [hc, Bool.false_eq_true, if_false] at h
    cases hsz : get_constant_or_val st sz with
    | error e => rw [hsz] at h; cases h
    | ok sz' =>
      rw [hsz] at h
      simp only [Except.ok.injEq, Prod.mk.injEq] at h
      exact ⟨sz', rfl, h.1.symm, h.2.symm⟩

theorem register_alias_ok (st : BuilderState) (n : String) (sz : RefOrVal)
    (actual : String) (index : IndexSpec) (ats : List String) (r : RegisterAlias)
    (st' : BuilderState) (h : register_alias st n sz actual index ats = .ok (r, st')) :
    ∃ ar sz',
      resolveActual st actual = some ar ∧
      get_constant_or_val st sz = .ok sz' ∧
      r = RegisterAlias.make n ar index ats none sz' ∧
      ((∃ pm, alistGet st.memories actual = some pm ∧
          st' = { st with
            register_alias := alistInsert st.register_alias n r,
            memories := alistModify st.memories actual
              (fun x => x.addChild (.mk n (normalizeIndex index) sz' ats [])),
            memory_aliases := alistInsert st.memory_aliases n
              (.mk n (normalizeIndex index) sz' ats []) }) ∨
        (alistGet st.memories actual = none ∧
          (∃ pm, alistGet st.memory_aliases actual = some pm) ∧
          st' = { st with
            register_alias := alistInsert st.register_alias n r,
            memory_aliases := alistInsert
              (alistModify st.memory_aliases actual
                (fun x => x.addChild (.mk n (normalizeIndex index) sz' ats [])))
              n (.mk n (normalizeIndex index) sz' ats []) })) := by
  unfold register_alias at h
  by_cases hc : alistContains st.register_alias n
  · simp [hc] at h
  · simp only [hc, Bool.false_eq_true, if_false] at h
    cases hact : resolveActual st actual with
    | none => rw [hact] at h; cases h
    | some ar =>
      rw [hact] at h
      cases hsz : get_constant_or_val st sz with
      | error e => rw [hsz] at h; cases h
      | ok sz' =>
        rw [hsz] at h
        simp only at h
        cases hmem : alistGet st.memories actual with
        | some pm =>
          rw [hmem] at h
          simp only [Except.ok.injEq, Prod.mk.injEq] at h
          refine ⟨ar, sz', rfl, rfl, h.1.symm, Or.inl ⟨pm, rfl, ?_⟩⟩
          rw [← h.1, ← h.2]
        | none =>
          rw [hmem] at h
          cases hma : alistGet st.memory_aliases actual with
          | none => rw [hma] at h; cases h
          | some pm =>
            rw [hma] at h
            simp only [Except.ok.injEq, Prod.mk.injEq] at h
            refine ⟨ar, sz', rfl, rfl, h.1.symm, Or.inr ⟨rfl, ⟨pm, rfl⟩, ?_⟩⟩
            rw [← h.1, ← h.2]

theorem constant_decl_succeeds (st : BuilderState) (n : String) (v : Int)
    (hf : alistContains st.constants n = false) :
    constant_decl st n v =
      .ok (⟨n, v, []⟩, { st with constants := alistInsert st.constants n ⟨n, v, []⟩ }) := by
  simp [constant_decl, hf]

theorem register_succeeds (st : BuilderState) (n : String) (sz sz' : RefOrVal)
    (ats : List String) (hf : alistContains st.registers n = false)
    (hsz : get_constant_or_val st sz = .ok sz') :
    register st n sz ats =
      .ok (⟨n, ats, none, sz'⟩, { st with
        registers := alistInsert st.registers n ⟨n, ats, none, sz'⟩,
        memories :=
          alistInsert st.memories n (.mk n ⟨.val 0, .val 0, .val 1⟩ sz' ats []) }) := by
  unfold register
  rw [hf, hsz]
  simp

theorem register_file_succeeds (st : BuilderState) (rg : RangeSpec) (n : String)
    (sz sz' : RefOrVal) (ats : List String)
    (hf : alistContains st.register_file n = false)
    (hsz : get_constant_or_val st sz = .ok sz') :
    register_file st rg n sz ats =
      .ok (⟨n, rg, ats, sz'⟩, { st with
        register_file := alistInsert st.register_file n ⟨n, rg, ats, sz'⟩,
        memories := alistInsert st.memories n (.mk n rg sz' ats []) }) := by
  unfold register_file
  rw [hf, hsz]
  simp

theorem address_space_succeeds (st : BuilderState) (n : String) (sz lb : RefOrVal)
    (lp : Option RefOrVal) (ats : List String) (sz' lb' lp' : RefOrVal)
    (hf : alistContains st.address_spaces n = false)
    (hsz : get_constant_or_val st sz = .ok sz')
    (hlb : get_constant_or_val st lb = .ok lb')
    (hlp : (match lp with
            | some l => get_constant_or_val st l
            | none => .ok (RefOrVal.val 1)) = .ok lp') :
    address_space st n sz lb lp ats =
      .ok (⟨n, lb', lp', sz', ats⟩, { st with
        address_spaces := alistInsert st.address_spaces n ⟨n, lb', lp', sz', ats⟩,
        memories :=
          alistInsert st.memories n (.mk n ⟨lb', .val 0, lp'⟩ sz' ats []) }) := by
  unfold address_space
  rw [hf, hsz, hlb, hlp]
  simp

/-- C1 — For every builder state and every one of the five declaration
handlers (`constant_decl`, `address_space`, `register`, `register_file`,
`register_alias`): if the given name already exists in that handler's own
namespace table, the handler fails with a `DuplicateDeclarationError`
instead of constructing a new entity or merging with the existing one (an
error result carries no state at all); and a second call with the same
name after a successful first call is always an error. -/
theorem claim1_duplicate_declaration_rejected (st : BuilderState) (n : String)
    (v v2 : Int) (sz lb sz2 lb2 : RefOrVal) (lp lp2 : Option RefOrVal)
    (ats ats2 : List String) (rsz rsz2 : RefOrVal) (rats rats2 : List String)
    (frg frg2 : RangeSpec) (fsz fsz2 : RefOrVal) (fats fats2 : List String)
    (asz asz2 : RefOrVal) (aact aact2 : String) (aidx aidx2 : IndexSpec)
    (aats aats2 : List String) :
    (alistContains st.constants n = true →
      constant_decl st n v = .error (.DuplicateDeclarationError n)) ∧
    (alistContains st.address_spaces n = true →
      address_space st n sz lb lp ats = .error (.DuplicateDeclarationError n)) ∧
    (alistContains st.registers n = true →
      register st n rsz rats = .error (.DuplicateDeclarationError n)) ∧
    (alistContains st.register_file n = true →
      register_file st frg n fsz fats = .error (.DuplicateDeclarationError n)) ∧
    (alistContains st.register_alias n = true →
      register_alias st n asz aact aidx aats = .error (.DuplicateDeclarationError n)) ∧
    (∀ c st', constant_decl st n v = .ok (c, st') →
      constant_decl st' n v2 = .error (.DuplicateDeclarationError n)) ∧
    (∀ a st', address_space st n sz lb lp ats = .ok (a, st') →
      address_space st' n sz2 lb2 lp2 ats2 = .error (.DuplicateDeclarationError n)) ∧
    (∀ r st', register st n rsz rats = .ok (r, st') →
      register st' n rsz2 rats2 = .error (.DuplicateDeclarationError n)) ∧
    (∀ r st', register_file st frg n fsz fats = .ok (r, st') →
      register_file st' frg2 n fsz2 fats2 = .error (.DuplicateDeclarationError n)) ∧
    (∀ r st', register_alias st n asz aact aidx aats = .ok (r, st') →
      register_alias st' n asz2 aact2 aidx2 aats2 =
        .error (.DuplicateDeclarationError n)) := by
  refine ⟨?_, ?_, ?_, ?_, ?_, ?_, ?_, ?_, ?_, ?_⟩
  · intro h; simp [constant_decl, h]
  · intro h; simp [address_space, h]
  · intro h; simp [register, h]
  · intro h; simp [register_file, h]
  · intro h; simp [register_alias, h]
  · intro c st' h
    obtain ⟨-, hst⟩ := constant_decl_ok st n v c st' h
    subst hst
    simp [constant_decl, alistContains_insert_self]
  · intro a st' h
    obtain ⟨sz', lb', lp', -, -, -, -, hst⟩ := address_space_ok st n sz lb lp ats a st' h
    subst hst
    simp [address_space, alistContains_insert_self]
  · intro r st' h
    obtain ⟨sz', -, -, hst⟩ := register_ok st n rsz rats r st' h
    subst hst
    simp [register, alistContains_insert_self]
  · intro r st' h
    obtain ⟨sz', -, -, hst⟩ := register_file_ok st frg n fsz fats r st' h
    subst hst
    simp [register_file, alistContains_insert_self]
  · intro r st' h
    obtain ⟨ar, sz', -, -, -, hbr⟩ := register_alias_ok st n asz aact aidx aats r st' h
    rcases hbr with ⟨pm, -, hst⟩ | ⟨-, -, hst⟩ <;>
      · subst hst
        simp [register_alias, alistContains_insert_self]

/-- A builder state whose five uniqueness namespaces all already contain
the name `X`. -/
def stW : BuilderState :=
  ⟨[("X", ⟨"X", 1, []⟩)],
   [("X", ⟨"X", .val 4, .val 1, .val 8, []⟩)],
   [("X", ⟨"X", [], none, .val 32⟩)],
   [("X", ⟨"X", ⟨.val 3, .val 0, .val 1⟩, [], .val 32⟩)],
   [("X", ⟨"X", .reg "R", ⟨.val 0, .val 0, .val 1⟩, [], none, .val 16⟩)],
   [], [], [], [], [], 0⟩

/-- The state after declaring a plain register `R` of size 32 in the fresh
builder. -/
def w1base : BuilderState := stepOk (register initState "R" (.val 32) []) initState

def w1c : BuilderState := stepOk (constant_decl w1base "X" 1) w1base

def w1a : BuilderState :=
  stepOk (address_space w1base "X" (.val 8) (.val 4) none []) w1base

def w1g : BuilderState := stepOk (register w1base "X" (.val 32) []) w1base

def w1f : BuilderState :=
  stepOk (register_file w1base ⟨.val 3, .val 0, .val 1⟩ "X" (.val 32) []) w1base

def w1al : BuilderState :=
  stepOk (register_alias w1base "X" (.val 16) "R" (.single 0) []) w1base

/-- Witness for C1 at concrete inputs: each handler rejects a name already
present in its own namespace, and rejects a second call with the name of a
successful first call. -/
theorem claim1_duplicate_declaration_rejected_witness :
    constant_decl stW "X" 5 = .error (.DuplicateDeclarationError "X") ∧
    address_space stW "X" (.val 8) (.val 4) none [] =
      .error (.DuplicateDeclarationError "X") ∧
    register stW "X" (.val 32) [] = .error (.DuplicateDeclarationError "X") ∧
    register_file stW ⟨.val 3, .val 0, .val 1⟩ "X" (.val 32) [] =
      .error (.DuplicateDeclarationError "X") ∧
    register_alias stW "X" (.val 16) "R" (.single 0) [] =
      .error (.DuplicateDeclarationError "X") ∧
    constant_decl w1c "X" 2 = .error (.DuplicateDeclarationError "X") ∧
    address_space w1a "X" (.val 8) (.val 4) none [] =
      .error (.DuplicateDeclarationError "X") ∧
    register w1g "X" (.val 32) [] = .error (.DuplicateDeclarationError "X") ∧
    register_file w1f ⟨.val 3, .val 0, .val 1⟩ "X" (.val 32) [] =
      .error (.DuplicateDeclarationError "X") ∧
    register_alias w1al "X" (.val 16) "R" (.single 0) [] =
      .error (.DuplicateDeclarationError "X") := by
  have T := claim1_duplicate_declaration_rejected stW "X" 5 2 (.val 8) (.val 4)
    (.val 8) (.val 4) none none [] [] (.val 32) (.val 32) [] []
    ⟨.val 3, .val 0, .val 1⟩ ⟨.val 3, .val 0, .val 1⟩ (.val 32) (.val 32) [] []
    (.val 16) (.val 16) "R" "R" (.single 0) (.single 0) [] []
  have S := claim1_duplicate_declaration_rejected w1base "X" 1 2 (.val 8) (.val 4)
    (.val 8) (.val 4) none none [] [] (.val 32) (.val 32) [] []
    ⟨.val 3, .val 0, .val 1⟩ ⟨.val 3, .val 0, .val 1⟩ (.val 32) (.val 32) [] []
    (.val 16) (.val 16) "R" "R" (.single 0) (.single 0) [] []
  refine ⟨T.1 rfl, T.2.1 rfl, T.2.2.1 rfl, T.2.2.2.1 rfl, T.2.2.2.2.1 rfl,
    S.2.2.2.2.2.1 _ _ rfl, S.2.2.2.2.2.2.1 _ _ rfl, S.2.2.2.2.2.2.2.1 _ _ rfl,
    S.2.2.2.2.2.2.2.2.1 _ _ rfl, S.2.2.2.2.2.2.2.2.2 _ _ rfl⟩

theorem alistCountP_eq_zero_of_get_none {K V : Type} [DecidableEq K] (l : List (K × V))
    (k : K) (h : alistGet l k = none) :
    l.countP (fun p => decide (p.1 = k)) = 0 := by
  apply List.countP_eq_zero.mpr
  intro p hp
  simpa using not_mem_of_alistGet_eq_none l k h p hp

theorem alistInsert_countP_of_contains {K V : Type} [DecidableEq K] (l : List (K × V))
    (k : K) (v : V) (h : alistContains l k = true) :
    (alistInsert l k v).countP (fun p => decide (p.1 = k)) =
      l.countP (fun p => decide (p.1 = k)) := by
  induction l with
  | nil => simp [alistContains, alistGet] at h
  | cons p rest ih =>
    obtain ⟨a, b⟩ := p
    by_cases hak : a = k
    · subst hak
      simp [alistInsert, List.countP_cons]
    · simp only [alistContains, alistGet, if_neg hak] at h
      simp [alistInsert, if_neg hak, List.countP_cons, ih h]

theorem alistInsert_countP_of_not_contains {K V : Type} [DecidableEq K]
    (l : List (K × V)) (k : K) (v : V) (h : alistContains l k = false) :
    (alistInsert l k v).countP (fun p => decide (p.1 = k)) =
      l.countP (fun p => decide (p.1 = k)) + 1 := by
  induction l with
  | nil => simp [alistInsert, List.countP_cons]
  | cons p rest ih =>
    obtain ⟨a, b⟩ := p
    by_cases hak : a = k
    · subst hak
      simp [alistContains, alistGet] at h
    · simp only [alistContains, alistGet, if_neg hak] at h
      simp only [alistInsert, if_neg hak, List.countP_cons, ih h]
      simp [hak]

/-- C8 — Redeclaring a constant `n` via `constant_decl` when `n` already
exists is an error, whereas redeclaring via `constant_def` updates the
existing entity's value and attributes in place — the entry keeps its
position, the lookup under `n` yields the updated entity, the number of
entries under `n` is unchanged, and no error is raised — and when `n` does
not yet exist `constant_def` creates and registers a new `Constant`. -/
theorem claim8_constant_decl_vs_def (st : BuilderState) (n : String) (v v2 : Int)
    (ats : List String) :
    (alistContains st.constants n = true →
      constant_decl st n v = .error (.DuplicateDeclarationError n)) ∧
    (∀ c0, alistGet st.constants n = some c0 →
      constant_def st n v2 ats =
        .ok (⟨c0.name, v2, ats⟩,
          { st with constants := alistInsert st.constants n ⟨c0.name, v2, ats⟩ }) ∧
      alistGet (alistInsert st.constants n ⟨c0.name, v2, ats⟩) n =
        some ⟨c0.name, v2, ats⟩ ∧
      (alistInsert st.constants n ⟨c0.name, v2, ats⟩).countP
          (fun p => decide (p.1 = n)) =
        st.constants.countP (fun p => decide (p.1 = n))) ∧
    (alistGet st.constants n = none →
      constant_def st n v2 ats =
        .ok (⟨n, v2, ats⟩,
          { st with constants := alistInsert st.constants n ⟨n, v2, ats⟩ })) := by
  refine ⟨?_, ?_, ?_⟩
  · intro h; simp [constant_decl, h]
  · intro c0 h
    refine ⟨?_, ?_, ?_⟩
    · unfold constant_def
      rw [h]
    · rw [alistGet_insert]
      simp
    · exact alistInsert_countP_of_contains st.constants n _ (by simp [alistContains, h])
  · intro h
    unfold constant_def
    rw [h]

/-- Witness for C8: with `K = 7` declared, `constant_decl` rejects `K`,
`constant_def` updates it in place to value 9, and on the fresh builder
`constant_def` creates `K`. -/
theorem claim8_constant_decl_vs_def_witness :
    constant_decl w1c "X" 9 = .error (.DuplicateDeclarationError "X") ∧
    constant_def w1c "X" 9 ["attr"] =
      .ok (⟨"X", 9, ["attr"]⟩,
        { w1c with constants := alistInsert w1c.constants "X" ⟨"X", 9, ["attr"]⟩ }) ∧
    constant_def initState "X" 9 ["attr"] =
      .ok (⟨"X", 9, ["attr"]⟩,
        { initState with
          constants := alistInsert initState.constants "X" ⟨"X", 9, ["attr"]⟩ }) := by
  have T := claim8_constant_decl_vs_def w1c "X" 5 9 ["attr"]
  have S := claim8_constant_decl_vs_def initState "X" 5 9 ["attr"]
  exact ⟨T.1 rfl, (T.2.1 ⟨"X", 1, []⟩ rfl).1, S.2.2 rfl⟩

/-- C4 — The actual-register reference of `register_alias` is resolved by
probing the RegisterFile, then the Register, then the RegisterAlias table,
in that order, binding to the first table that contains the name; the
entity built by a successful reduction carries exactly that binding, and
when the name is in none of the three tables the handler fails with an
`UnresolvedReferenceError`. -/
theorem claim4_actual_register_probe_order (st : BuilderState) (n : String)
    (sz : RefOrVal) (actual : String) (idx : IndexSpec) (ats : List String) :
    (alistContains st.register_file actual = true →
      resolveActual st actual = some (.file actual)) ∧
    (alistContains st.register_file actual = false →
      alistContains st.registers actual = true →
      resolveActual st actual = some (.reg actual)) ∧
    (alistContains st.register_file actual = false →
      alistContains st.registers actual = false →
      alistContains st.register_alias actual = true →
      resolveActual st actual = some (.alias actual)) ∧
    (alistContains st.register_file actual = false →
      alistContains st.registers actual = false →
      alistContains st.register_alias actual = false →
      resolveActual st actual = none ∧
      (alistContains st.register_alias n = false →
        register_alias st n sz actual idx ats =
          .error (.UnresolvedReferenceError actual))) ∧
    (∀ r st', register_alias st n sz actual idx ats = .ok (r, st') →
      some r.actual = resolveActual st actual) := by
  refine ⟨?_, ?_, ?_, ?_, ?_⟩
  · intro h; simp [resolveActual, h]
  · intro h1 h2; simp [resolveActual, h1, h2]
  · intro h1 h2 h3; simp [resolveActual, h1, h2, h3]
  · intro h1 h2 h3
    have hres : resolveActual st actual = none := by
      simp [resolveActual, h1, h2, h3]
    refine ⟨hres, fun hdup => ?_⟩
    unfold register_alias
    rw [hdup, hres]
    simp
  · intro r st' h
    obtain ⟨ar, sz', hact, -, hr, -⟩ :=
      register_alias_ok st n sz actual idx ats r st' h
    rw [hr, hact]
    rfl

/-- A builder state holding a register file `F`, a plain register `R` and a
register alias `A` (with the matching Memory views), used to exercise the
probe order at concrete inputs. -/
def st4 : BuilderState :=
  ⟨[],
   [],
   [("R", ⟨"R", [], none, .val 32⟩)],
   [("F", ⟨"F", ⟨.val 3, .val 0, .val 1⟩, [], .val 32⟩)],
   [("A", ⟨"A", .reg "R", ⟨.val 0, .val 0, .val 1⟩, [], none, .val 16⟩)],
   [],
   [("R", .mk "R" ⟨.val 0, .val 0, .val 1⟩ (.val 32) [] []),
    ("F", .mk "F" ⟨.val 3, .val 0, .val 1⟩ (.val 32) [] [])],
   [("A", .mk "A" ⟨.val 0, .val 0, .val 1⟩ (.val 16) [] [])],
   [], [], 0⟩

/-- Witness for C4 at concrete inputs: in `st4` the name `F` binds to the
register-file table, `R` to the plain-register table, `A` to the alias
table; an unknown name `Z` makes `register_alias` fail with an
`UnresolvedReferenceError`; and a successful reduction's entity carries
the probe's binding. -/
theorem claim4_actual_register_probe_order_witness :
    resolveActual st4 "F" = some (.file "F") ∧
    resolveActual st4 "R" = some (.reg "R") ∧
    resolveActual st4 "A" = some (.alias "A") ∧
    resolveActual st4 "Z" = none ∧
    register_alias st4 "B" (.val 16) "Z" (.single 0) [] =
      .error (.UnresolvedReferenceError "Z") ∧
    some (RegisterAlias.actual ⟨"B", .reg "R", ⟨.val 0, .val 0, .val 1⟩, [], none, .val 16⟩) =
      resolveActual st4 "R" := by
  have TF := claim4_actual_register_probe_order st4 "B" (.val 16) "F" (.single 0) []
  have TR := claim4_actual_register_probe_order st4 "B" (.val 16) "R" (.single 0) []
  have TA := claim4_actual_register_probe_order st4 "B" (.val 16) "A" (.single 0) []
  have TZ := claim4_actual_register_probe_order st4 "B" (.val 16) "Z" (.single 0) []
  refine ⟨TF.1 rfl, TR.2.1 rfl rfl, TA.2.2.1 rfl rfl rfl, (TZ.2.2.2.1 rfl rfl rfl).1,
    (TZ.2.2.2.1 rfl rfl rfl).2 rfl, TR.2.2.2.2 _ _ rfl⟩

/-- C7 — `register_default` probes the RegisterAlias table before the plain
Register table; when the name is in neither table it fails with an
`UnresolvedReferenceError`; when found, the target entity stored in its
table is mutated in place to carry the resolved default value (and, per
the handler's `raise Discard`, the reduction contributes no tree value —
its embedded result is the updated state alone). -/
theorem claim7_register_default_lookup (st : BuilderState) (n : String)
    (val : RefOrVal) :
    (∀ r, alistGet st.register_alias n = some r →
      ∀ v, get_constant_or_val st val = .ok v →
        register_default st n val =
          .ok { st with
            register_alias :=
              alistInsert st.register_alias n ({ r with initval := some v }) }) ∧
    (alistGet st.register_alias n = none →
      ∀ r, alistGet st.registers n = some r →
        ∀ v, get_constant_or_val st val = .ok v →
          register_default st n val =
            .ok { st with
              registers :=
                alistInsert st.registers n ({ r with initval := some v }) }) ∧
    (alistGet st.register_alias n = none → alistGet st.registers n = none →
      register_default st n val = .error (.UnresolvedReferenceError n)) := by
  refine ⟨?_, ?_, ?_⟩
  · intro r hr v hv
    unfold register_default
    rw [hr, hv]
  · intro ha r hr v hv
    unfold register_default
    rw [ha, hr, hv]
  · intro ha hr
    unfold register_default
    rw [ha, hr]

/-- Witness for C7 at concrete inputs: in `st4` (alias `A`, register `R`),
a default for `A` updates the alias entry, a default for `R` updates the
register entry, and a default for the undeclared `Z` fails with an
`UnresolvedReferenceError`. -/
theorem claim7_register_default_lookup_witness :
    register_default st4 "A" (.val 3) =
      .ok { st4 with
        register_alias :=
          alistInsert st4.register_alias "A"
            ⟨"A", .reg "R", ⟨.val 0, .val 0, .val 1⟩, [], some (.val 3), .val 16⟩ } ∧
    register_default st4 "R" (.val 3) =
      .ok { st4 with
        registers := alistInsert st4.registers "R" ⟨"R", [], some (.val 3), .val 32⟩ } ∧
    register_default st4 "Z" (.val 3) = .error (.UnresolvedReferenceError "Z") := by
  have TA := claim7_register_default_lookup st4 "A" (.val 3)
  have TR := claim7_register_default_lookup st4 "R" (.val 3)
  have TZ := claim7_register_default_lookup st4 "Z" (.val 3)
  exact ⟨TA.1 ⟨"A", .reg "R", ⟨.val 0, .val 0, .val 1⟩, [], none, .val 16⟩ rfl (.val 3) rfl,
    TR.2.1 rfl ⟨"R", [], none, .val 32⟩ rfl (.val 3) rfl,
    TZ.2.2 rfl rfl⟩

/-- C2 — For two instruction reductions in the same builder whose encodings
derive the same `(code, mask)` pair (with that key not previously taken):
the second instruction overwrites the first in the instruction table keyed
by `(code, mask)` (not by name), exactly one non-fatal diagnostic is
emitted across the two calls, no error is raised (`instruction` is total),
and the number of instructions stored under that key remains 1. -/
theorem claim2_encoding_collision_overwrite (st : BuilderState) (n1 n2 : String)
    (a1 a2 : List String) (e1 e2 : List EncElem) (d1 d2 o1 o2 : String)
    (hsame : deriveCodeMask e2 = deriveCodeMask e1)
    (hfresh : alistContains st.instructions (deriveCodeMask e1) = false) :
    alistGet (instruction (instruction st n1 a1 e1 d1 o1).2 n2 a2 e2 d2 o2).2.instructions
        (deriveCodeMask e2) =
      some (instruction (instruction st n1 a1 e1 d1 o1).2 n2 a2 e2 d2 o2).1 ∧
    (instruction (instruction st n1 a1 e1 d1 o1).2 n2 a2 e2 d2 o2).1.name = n2 ∧
    ((instruction (instruction st n1 a1 e1 d1 o1).2 n2 a2 e2 d2 o2).2.instructions).countP
        (fun p => decide (p.1 = deriveCodeMask e2)) = 1 ∧
    ((instruction (instruction st n1 a1 e1 d1 o1).2 n2 a2 e2 d2 o2).2.warnings).length =
      st.warnings.length + 1 := by
  have hget : alistGet st.instructions (deriveCodeMask e1) = none := by
    cases hg : alistGet st.instructions (deriveCodeMask e1) with
    | none => rfl
    | some x => simp [alistContains, hg] at hfresh
  have hcontains :
      alistContains (alistInsert st.instructions (deriveCodeMask e1)
        ⟨n1, a1, e1, d1, o1, (deriveCodeMask e1).1, (deriveCodeMask e1).2⟩)
        (deriveCodeMask e1) = true :=
    alistContains_insert_self _ _ _
  unfold instruction
  simp only [hsame, hget, alistGet_insert, if_pos rfl]
  refine ⟨by trivial, by trivial, ?_, by simp⟩
  rw [alistInsert_countP_of_contains _ _ _ hcontains,
    alistInsert_countP_of_not_contains _ _ _ hfresh,
    alistCountP_eq_zero_of_get_none _ _ hget]

/-- Witness for C2 at concrete inputs: `ADD` and `SUB` declared with the
identical 7-bit fixed encoding collide; `SUB` overwrites `ADD` under the
shared `(code, mask)` key, the key holds one instruction, and one
diagnostic is emitted. -/
theorem claim2_encoding_collision_overwrite_witness :
    alistGet (instruction (instruction initState "ADD" [] [.bitval 6 51] "add" "op1").2
        "SUB" [] [.bitval 6 51] "sub" "op2").2.instructions
        (deriveCodeMask [.bitval 6 51]) =
      some (instruction (instruction initState "ADD" [] [.bitval 6 51] "add" "op1").2
        "SUB" [] [.bitval 6 51] "sub" "op2").1 ∧
    (instruction (instruction initState "ADD" [] [.bitval 6 51] "add" "op1").2
      "SUB" [] [.bitval 6 51] "sub" "op2").1.name = "SUB" ∧
    ((instruction (instruction initState "ADD" [] [.bitval 6 51] "add" "op1").2
        "SUB" [] [.bitval 6 51] "sub" "op2").2.instructions).countP
        (fun p => decide (p.1 = deriveCodeMask [.bitval 6 51])) = 1 ∧
    ((instruction (instruction initState "ADD" [] [.bitval 6 51] "add" "op1").2
        "SUB" [] [.bitval 6 51] "sub" "op2").2.warnings).length =
      initState.warnings.length + 1 :=
  claim2_encoding_collision_overwrite initState "ADD" "SUB" [] [] [.bitval 6 51]
    [.bitval 6 51] "add" "sub" "op1" "op2" rfl rfl

/-- C3 — The `CoreDef` produced by `core_def` carries a unified register
view that merges the register-file, plain-register and register-alias
tables with dict-merge semantics: on a name collision the entry from the
later-merged table wins, so an alias shadows a plain register, which
shadows a register file. -/
theorem claim3_coredef_register_view (st : BuilderState) (nm tpl : String)
    (k : String) (hr : (st.registers.map Prod.fst).Nodup)
    (ha : (st.register_alias.map Prod.fst).Nodup) :
    alistGet (core_def st nm tpl).register_view k =
      match alistGet st.register_alias k with
      | some r => some (.alias r)
      | none =>
        match alistGet st.registers k with
        | some r => some (.reg r)
        | none => (alistGet st.register_file k).map .file := by
  have hmapa :
      ((st.register_alias.map (fun p => (p.1, RegView.alias p.2))).map Prod.fst).Nodup := by
    simpa [List.map_map, Function.comp] using ha
  have hmapr :
      ((st.registers.map (fun p => (p.1, RegView.reg p.2))).map Prod.fst).Nodup := by
    simpa [List.map_map, Function.comp] using hr
  unfold core_def CoreDef.register_view
  rw [alistGet_merge _ _ _ hmapa, alistGet_merge _ _ _ hmapr]
  rw [alistGet_map_value, alistGet_map_value, alistGet_map_value]
  cases alistGet st.register_alias k with
  | some r => simp
  | none =>
    cases alistGet st.registers k with
    | some r => simp
    | none => simp

/-- Witness for C3 at a concrete input: in `stW` the name `X` is present in
all three register namespaces, and the unified view binds it to the
register-alias entry (the later-merged table). -/
theorem claim3_coredef_register_view_witness :
    alistGet (core_def stW "core" "tpl").register_view "X" =
      some (RegView.alias ⟨"X", .reg "R", ⟨.val 0, .val 0, .val 1⟩, [], none, .val 16⟩) :=
  claim3_coredef_register_view stW "core" "tpl" "X" (by decide) (by decide)

/-- The state after declaring the constant `WLEN = 32` in a fresh
builder. -/
def c6s1 : BuilderState := stepOk (constant_decl initState "WLEN" 32) initState

/-- The state after additionally declaring the address space `MEM` with
element size 8, length base given as the reference `WLEN`, and power 1. -/
def c6s2 : BuilderState :=
  stepOk (address_space c6s1 "MEM" (.val 8) (.ref "WLEN") (some (.val 1)) []) c6s1

/-- C6 (counterexample to the claimed rule) — in the spec's scenario
(constant `WLEN = 32`, then address space `MEM` with length base `WLEN`
and power 1) the resolved length of `MEM` is 32, which is not what the
claim's stated rule `length = base count × 2 ^ power` yields there
(32 × 2¹ = 64): both asserted values cannot hold of the one resolved
length. -/
theorem claim6_length_rule_counterexample :
    alistGet c6s2.address_spaces "MEM" =
      some ⟨"MEM", .ref "WLEN", .val 1, .val 8, []⟩ ∧
    AddressSpace.resolvedLength c6s2.constants
      ⟨"MEM", .ref "WLEN", .val 1, .val 8, []⟩ = some 32 ∧
    AddressSpace.resolvedLength c6s2.constants
      ⟨"MEM", .ref "WLEN", .val 1, .val 8, []⟩ ≠ some (32 * 2 ^ 1) := by
  exact ⟨rfl, by decide, by decide⟩

/-- C6 (amended) — declaring Constant `WLEN = 32` and then AddressSpace
`MEM` with length base the reference `WLEN` and power 1 gives an
AddressSpace whose length resolves to 32 (per the rule
`length = base count ^ power`, with named endpoints looked up in the
Constant namespace), and the paired Memory view stored under `MEM` has the
same resolved length. -/
theorem claim6_constant_backed_length :
    alistGet c6s2.address_spaces "MEM" =
      some ⟨"MEM", .ref "WLEN", .val 1, .val 8, []⟩ ∧
    AddressSpace.resolvedLength c6s2.constants
      ⟨"MEM", .ref "WLEN", .val 1, .val 8, []⟩ = some 32 ∧
    alistGet c6s2.memories "MEM" =
      some (.mk "MEM" ⟨.ref "WLEN", .val 0, .val 1⟩ (.val 8) [] []) ∧
    Memory.resolvedLength c6s2.constants
      (.mk "MEM" ⟨.ref "WLEN", .val 0, .val 1⟩ (.val 8) [] []) = some 32 := by
  exact ⟨rfl, by decide, rfl, by decide⟩

/-- The state after declaring the plain register `X0` of size 32 in a
fresh builder. -/
def c9s1 : BuilderState := stepOk (register initState "X0" (.val 32) []) initState

/-- The state after additionally declaring the register alias `AL` over
`X0` with the bare single index 5 and size 16. -/
def c9s2 : BuilderState :=
  stepOk (register_alias c9s1 "AL" (.val 16) "X0" (.single 5) []) c9s1

/-- C9 — for every `register_alias` reduction whose index argument is a
bare single index `i` rather than a range: the index is normalised to the
degenerate `RangeSpec (i, i)` with equal bounds, so that both the
constructed `RegisterAlias` entity (whose constructor stores the index
normalised, per §3) and its paired Memory view carry `RangeSpec (i, i)`. -/
theorem claim9_single_index_normalized (st : BuilderState) (n : String)
    (sz : RefOrVal) (actual : String) (i : Int) (ats : List String)
    (r : RegisterAlias) (st' : BuilderState)
    (h : register_alias st n sz actual (.single i) ats = .ok (r, st')) :
    ∃ sz',
      get_constant_or_val st sz = .ok sz' ∧
      r.index = RangeSpec.mk (.val i) (.val i) (.val 1) ∧
      normalizeIndex (.single i) = RangeSpec.mk (.val i) (.val i) (.val 1) ∧
      alistGet st'.memory_aliases n =
        some (.mk n ⟨.val i, .val i, .val 1⟩ sz' ats []) := by
  obtain ⟨ar, sz', -, hsz, hr, hbr⟩ :=
    register_alias_ok st n sz actual (.single i) ats r st' h
  refine ⟨sz', hsz, by rw [hr]; rfl, rfl, ?_⟩
  rcases hbr with ⟨pm, -, hst⟩ | ⟨-, -, hst⟩ <;>
    · subst hst
      simp [alistGet_insert, normalizeIndex]

/-- Witness for C9 at the concrete scenario: alias `AL` over register `X0`
at bare index 5 — the entity's index and its Memory view's range are both
the degenerate `RangeSpec (5, 5)`. -/
theorem claim9_single_index_normalized_witness :
    ∃ sz',
      get_constant_or_val c9s1 (.val 16) = .ok sz' ∧
      RegisterAlias.index
          (RegisterAlias.make "AL" (.reg "X0") (.single 5) [] none (.val 16)) =
        RangeSpec.mk (.val 5) (.val 5) (.val 1) ∧
      normalizeIndex (.single 5) = RangeSpec.mk (.val 5) (.val 5) (.val 1) ∧
      alistGet c9s2.memory_aliases "AL" =
        some (.mk "AL" ⟨.val 5, .val 5, .val 1⟩ sz' [] []) :=
  claim9_single_index_normalized c9s1 "AL" (.val 16) "X0" 5 [] _ _ rfl

theorem alistGet_modify {K V : Type} [DecidableEq K] (l : List (K × V)) (k : K)
    (f : V → V) (k' : K) :
    alistGet (alistModify l k f) k' =
      if k' = k then (alistGet l k).map f else alistGet l k' := by
  induction l with
  | nil => simp [alistModify, alistGet]
  | cons p rest ih =>
    obtain ⟨a, b⟩ := p
    by_cases hak : a = k
    · subst hak
      simp only [alistModify, if_pos rfl, alistGet]
      by_cases hk' : a = k'
      · subst hk'
        simp
      · have hk'a : ¬ (k' = a) := fun hh => hk' hh.symm
        rw [if_neg hk', ih, if_neg hk'a, if_neg hk'a, if_neg hk']
    · simp only [alistModify, if_neg hak, alistGet]
      by_cases hk' : a = k'
      · subst hk'
        rw [if_pos rfl, if_neg hak, if_pos rfl]
      · rw [if_neg hk', ih, if_neg hk']

theorem Memory.children_addChild (pm m : Memory) :
    (pm.addChild m).children = pm.children ++ [m] := by
  cases pm
  rfl

/-- The number of children named `n` of the Memory node the alias-parent
probe finds for `actual` (0 when the probe finds nothing). -/
def parentChildNameCount (st : BuilderState) (actual n : String) : Nat :=
  match probeParentMem st actual with
  | some pm => pm.children.countP (fun c => decide (c.name = n))
  | none => 0

theorem register_alias_ok_fresh (st : BuilderState) (n : String) (sz : RefOrVal)
    (actual : String) (idx : IndexSpec) (ats : List String) (r : RegisterAlias)
    (st' : BuilderState) (h : register_alias st n sz actual idx ats = .ok (r, st')) :
    alistContains st.register_alias n = false := by
  cases hb : alistContains st.register_alias n with
  | false => rfl
  | true => simp [register_alias, hb] at h

/-- C5 — for every successful `register_alias` reduction creating alias `n`
over actual register `actual`: a Memory view named `n` is appended to the
child list of the parent Memory node located by probing the Memory table
then the Memory-alias table; it appears in that child list exactly once;
and the child's RangeSpec is the alias's declared index range (a bare
index normalised to a degenerate range).  The two hypotheses are
invariants of every reachable builder state: no Memory node has a child
named `n` before the alias `n` is created (children are added only by a
successful alias creation, which registers the name), and every name in
the Memory-alias table also names a register alias (both tables gain the
name in the same reduction).  A self-named alias (`n = actual`, reachable
because the alias and register namespaces are independent) is covered. -/
theorem claim5_alias_memory_child (st : BuilderState) (n : String) (sz : RefOrVal)
    (actual : String) (idx : IndexSpec) (ats : List String) (r : RegisterAlias)
    (st' : BuilderState)
    (hinv : alistContains st.memory_aliases actual = true →
      alistContains st.register_alias actual = true)
    (hzero : parentChildNameCount st actual n = 0)
    (h : register_alias st n sz actual idx ats = .ok (r, st')) :
    ∃ sz' pm,
      get_constant_or_val st sz = .ok sz' ∧
      probeParentMem st actual = some pm ∧
      probeParentMem st' actual =
        some (pm.addChild (.mk n (normalizeIndex idx) sz' ats [])) ∧
      (pm.addChild (.mk n (normalizeIndex idx) sz' ats [])).children =
        pm.children ++ [.mk n (normalizeIndex idx) sz' ats []] ∧
      ((pm.addChild (.mk n (normalizeIndex idx) sz' ats [])).children.countP
          (fun c => decide (c.name = n))) = 1 ∧
      Memory.range (.mk n (normalizeIndex idx) sz' ats []) = normalizeIndex idx := by
  obtain ⟨ar, sz', -, hsz, -, hbr⟩ :=
    register_alias_ok st n sz actual idx ats r st' h
  rcases hbr with ⟨pm, hmem, hst⟩ | ⟨hmem, ⟨pm, hma⟩, hst⟩
  · have hprobe : probeParentMem st actual = some pm := by
      simp [probeParentMem, hmem]
    have hcount : pm.children.countP (fun c => decide (c.name = n)) = 0 := by
      simpa [parentChildNameCount, hprobe] using hzero
    subst hst
    refine ⟨sz', pm, hsz, hprobe, ?_, Memory.children_addChild _ _, ?_, rfl⟩
    · simp [probeParentMem, alistGet_modify, hmem]
    · rw [Memory.children_addChild, List.countP_append, hcount]
      simp [Memory.name]
  · have hdup : alistContains st.register_alias n = false :=
      register_alias_ok_fresh st n sz actual idx ats r st' h
    have hne : ¬ (n = actual) := by
      intro heq
      have hmaT : alistContains st.memory_aliases actual = true := by
        simp [alistContains, hma]
      have hra := hinv hmaT
      rw [← heq, hdup] at hra
      cases hra
    have hprobe : probeParentMem st actual = some pm := by
      simp [probeParentMem, hmem, hma]
    have hcount : pm.children.countP (fun c => decide (c.name = n)) = 0 := by
      simpa [parentChildNameCount, hprobe] using hzero
    subst hst
    refine ⟨sz', pm, hsz, hprobe, ?_, Memory.children_addChild _ _, ?_, rfl⟩
    · simp [probeParentMem, hmem, alistGet_insert, alistGet_modify, hne, hma]
    · rw [Memory.children_addChild, List.countP_append, hcount]
      simp [Memory.name]

/-- The state after declaring the plain register `X0` of size 32 in a
fresh builder (the C5 scenario's first step). -/
def c5s1 : BuilderState := stepOk (register initState "X0" (.val 32) []) initState

/-- The state after additionally declaring the register alias `X0L` over
`X0` at index range [15:0] with size 16. -/
def c5s2 : BuilderState :=
  stepOk (register_alias c5s1 "X0L" (.val 16) "X0" (.range ⟨.val 15, .val 0, .val 1⟩) [])
    c5s1

/-- The state after instead declaring, on top of `c5s1`, a register alias
named `X0` over the register `X0` itself (reachable: the alias and
register namespaces are independent) at the bare index 7. -/
def c5s3 : BuilderState :=
  stepOk (register_alias c5s1 "X0" (.val 16) "X0" (.single 7) []) c5s1

/-- Witness for C5 at two concrete scenarios: register `X0` size 32 with
alias `X0L` over `X0` at range [15:0] size 16 (`X0`'s Memory node gains
exactly one child named `X0L` with RangeSpec [15, 0]), and the self-named
alias `X0` over the register `X0` at bare index 7, where the property
holds as well. -/
theorem claim5_alias_memory_child_witness :
    (∃ sz' pm,
      get_constant_or_val c5s1 (.val 16) = .ok sz' ∧
      probeParentMem c5s1 "X0" = some pm ∧
      probeParentMem c5s2 "X0" =
        some (pm.addChild
          (.mk "X0L" (normalizeIndex (.range ⟨.val 15, .val 0, .val 1⟩)) sz' [] [])) ∧
      (pm.addChild
          (.mk "X0L" (normalizeIndex (.range ⟨.val 15, .val 0, .val 1⟩)) sz' [] [])).children =
        pm.children ++
          [.mk "X0L" (normalizeIndex (.range ⟨.val 15, .val 0, .val 1⟩)) sz' [] []] ∧
      ((pm.addChild
          (.mk "X0L" (normalizeIndex (.range ⟨.val 15, .val 0, .val 1⟩)) sz' [] [])).children.countP
          (fun c => decide (c.name = "X0L"))) = 1 ∧
      Memory.range
          (.mk "X0L" (normalizeIndex (.range ⟨.val 15, .val 0, .val 1⟩)) sz' [] []) =
        normalizeIndex (.range ⟨.val 15, .val 0, .val 1⟩)) ∧
    (∃ sz' pm,
      get_constant_or_val c5s1 (.val 16) = .ok sz' ∧
      probeParentMem c5s1 "X0" = some pm ∧
      probeParentMem c5s3 "X0" =
        some (pm.addChild (.mk "X0" (normalizeIndex (.single 7)) sz' [] [])) ∧
      (pm.addChild (.mk "X0" (normalizeIndex (.single 7)) sz' [] [])).children =
        pm.children ++ [.mk "X0" (normalizeIndex (.single 7)) sz' [] []] ∧
      ((pm.addChild (.mk "X0" (normalizeIndex (.single 7)) sz' [] [])).children.countP
          (fun c => decide (c.name = "X0"))) = 1 ∧
      Memory.range (.mk "X0" (normalizeIndex (.single 7)) sz' [] []) =
        normalizeIndex (.single 7)) :=
  ⟨claim5_alias_memory_child c5s1 "X0L" (.val 16) "X0"
      (.range ⟨.val 15, .val 0, .val 1⟩) [] _ _ (by decide) rfl rfl,
    claim5_alias_memory_child c5s1 "X0" (.val 16) "X0" (.single 7) [] _ _
      (by decide) rfl rfl⟩

/-- C10 — `address_space`, `register` and `register_file` all store their
Memory views in the one shared name-keyed `memories` table: for any two
declarations of different kinds with the same name, the second succeeds
after the first (the duplicate-name checks are per-kind, consulting only
the second kind's own table), its Memory view silently replaces the
earlier declaration's entry in the shared table, and every other entry of
the memory table is unchanged.  One conjunct per ordered pair of distinct
kinds. -/
theorem claim10_shared_memory_table (st : BuilderState) (n : String) :
    (∀ asz alb aats rsz rsz' rats alp a st1,
      address_space st n asz alb alp aats = .ok (a, st1) →
      alistContains st1.registers n = false →
      get_constant_or_val st1 rsz = .ok rsz' →
      ∃ st2, register st1 n rsz rats = .ok (⟨n, rats, none, rsz'⟩, st2) ∧
        alistGet st2.memories n =
          some (.mk n ⟨.val 0, .val 0, .val 1⟩ rsz' rats []) ∧
        (∀ k, k ≠ n → alistGet st2.memories k = alistGet st1.memories k)) ∧
    (∀ asz alb aats frg fsz fsz' fats alp a st1,
      address_space st n asz alb alp aats = .ok (a, st1) →
      alistContains st1.register_file n = false →
      get_constant_or_val st1 fsz = .ok fsz' →
      ∃ st2, register_file st1 frg n fsz fats = .ok (⟨n, frg, fats, fsz'⟩, st2) ∧
        alistGet st2.memories n = some (.mk n frg fsz' fats []) ∧
        (∀ k, k ≠ n → alistGet st2.memories k = alistGet st1.memories k)) ∧
    (∀ rsz rats asz alb aats asz' alb' alp' alp r st1,
      register st n rsz rats = .ok (r, st1) →
      alistContains st1.address_spaces n = false →
      get_constant_or_val st1 asz = .ok asz' →
      get_constant_or_val st1 alb = .ok alb' →
      (match alp with
       | some l => get_constant_or_val st1 l
       | none => .ok (RefOrVal.val 1)) = .ok alp' →
      ∃ st2, address_space st1 n asz alb alp aats =
          .ok (⟨n, alb', alp', asz', aats⟩, st2) ∧
        alistGet st2.memories n =
          some (.mk n ⟨alb', .val 0, alp'⟩ asz' aats []) ∧
        (∀ k, k ≠ n → alistGet st2.memories k = alistGet st1.memories k)) ∧
    (∀ rsz rats frg fsz fsz' fats r st1,
      register st n rsz rats = .ok (r, st1) →
      alistContains st1.register_file n = false →
      get_constant_or_val st1 fsz = .ok fsz' →
      ∃ st2, register_file st1 frg n fsz fats = .ok (⟨n, frg, fats, fsz'⟩, st2) ∧
        alistGet st2.memories n = some (.mk n frg fsz' fats []) ∧
        (∀ k, k ≠ n → alistGet st2.memories k = alistGet st1.memories k)) ∧
    (∀ frg fsz fats asz alb aats asz' alb' alp' alp r st1,
      register_file st frg n fsz fats = .ok (r, st1) →
      alistContains st1.address_spaces n = false →
      get_constant_or_val st1 asz = .ok asz' →
      get_constant_or_val st1 alb = .ok alb' →
      (match alp with
       | some l => get_constant_or_val st1 l
       | none => .ok (RefOrVal.val 1)) = .ok alp' →
      ∃ st2, address_space st1 n asz alb alp aats =
          .ok (⟨n, alb', alp', asz', aats⟩, st2) ∧
        alistGet st2.memories n =
          some (.mk n ⟨alb', .val 0, alp'⟩ asz' aats []) ∧
        (∀ k, k ≠ n → alistGet st2.memories k = alistGet st1.memories k)) ∧
    (∀ frg fsz fats rsz rsz' rats r st1,
      register_file st frg n fsz fats = .ok (r, st1) →
      alistContains st1.registers n = false →
      get_constant_or_val st1 rsz = .ok rsz' →
      ∃ st2, register st1 n rsz rats = .ok (⟨n, rats, none, rsz'⟩, st2) ∧
        alistGet st2.memories n =
          some (.mk n ⟨.val 0, .val 0, .val 1⟩ rsz' rats []) ∧
        (∀ k, k ≠ n → alistGet st2.memories k = alistGet st1.memories k)) := by
  have hframe : ∀ (l : List (String × Memory)) (m : Memory) (k : String), k ≠ n →
      alistGet (alistInsert l n m) k = alistGet l k := by
    intro l m k hk
    rw [alistGet_insert, if_neg (fun hh => hk hh.symm)]
  refine ⟨?_, ?_, ?_, ?_, ?_, ?_⟩
  · intro asz alb aats rsz rsz' rats alp a st1 h hf hsz
    exact ⟨_, register_succeeds st1 n rsz rsz' rats hf hsz,
      by simp [alistGet_insert], fun k hk => hframe _ _ k hk⟩
  · intro asz alb aats frg fsz fsz' fats alp a st1 h hf hsz
    exact ⟨_, register_file_succeeds st1 frg n fsz fsz' fats hf hsz,
      by simp [alistGet_insert], fun k hk => hframe _ _ k hk⟩
  · intro rsz rats asz alb aats asz' alb' alp' alp r st1 h hf hsz hlb hlp
    exact ⟨_, address_space_succeeds st1 n asz alb alp aats asz' alb' alp' hf hsz hlb hlp,
      by simp [alistGet_insert], fun k hk => hframe _ _ k hk⟩
  · intro rsz rats frg fsz fsz' fats r st1 h hf hsz
    exact ⟨_, register_file_succeeds st1 frg n fsz fsz' fats hf hsz,
      by simp [alistGet_insert], fun k hk => hframe _ _ k hk⟩
  · intro frg fsz fats asz alb aats asz' alb' alp' alp r st1 h hf hsz hlb hlp
    exact ⟨_, address_space_succeeds st1 n asz alb alp aats asz' alb' alp' hf hsz hlb hlp,
      by simp [alistGet_insert], fun k hk => hframe _ _ k hk⟩
  · intro frg fsz fats rsz rsz' rats r st1 h hf hsz
    exact ⟨_, register_succeeds st1 n rsz rsz' rats hf hsz,
      by simp [alistGet_insert], fun k hk => hframe _ _ k hk⟩

/-- The state after declaring an AddressSpace named `N` in a fresh
builder. -/
def c10a : BuilderState :=
  stepOk (address_space initState "N" (.val 8) (.val 4) none []) initState

/-- The state after declaring a plain Register named `N` in a fresh
builder. -/
def c10r : BuilderState := stepOk (register initState "N" (.val 32) []) initState

/-- The state after declaring a RegisterFile named `N` in a fresh
builder. -/
def c10f : BuilderState :=
  stepOk (register_file initState ⟨.val 3, .val 0, .val 1⟩ "N" (.val 32) []) initState

/-- Witness for C10 at concrete inputs: after declaring `N` as one kind, a
declaration of `N` as each other kind still succeeds, and its Memory view
replaces the entry under `N` in the shared memory table. -/
theorem claim10_shared_memory_table_witness :
    (∃ st2, register c10a "N" (.val 32) [] = .ok (⟨"N", [], none, .val 32⟩, st2) ∧
      alistGet st2.memories "N" =
        some (.mk "N" ⟨.val 0, .val 0, .val 1⟩ (.val 32) [] []) ∧
      (∀ k, k ≠ "N" → alistGet st2.memories k = alistGet c10a.memories k)) ∧
    (∃ st2, register_file c10a ⟨.val 3, .val 0, .val 1⟩ "N" (.val 32) [] =
        .ok (⟨"N", ⟨.val 3, .val 0, .val 1⟩, [], .val 32⟩, st2) ∧
      alistGet st2.memories "N" =
        some (.mk "N" ⟨.val 3, .val 0, .val 1⟩ (.val 32) [] []) ∧
      (∀ k, k ≠ "N" → alistGet st2.memories k = alistGet c10a.memories k)) ∧
    (∃ st2, address_space c10r "N" (.val 8) (.val 4) none [] =
        .ok (⟨"N", .val 4, .val 1, .val 8, []⟩, st2) ∧
      alistGet st2.memories "N" =
        some (.mk "N" ⟨.val 4, .val 0, .val 1⟩ (.val 8) [] []) ∧
      (∀ k, k ≠ "N" → alistGet st2.memories k = alistGet c10r.memories k)) ∧
    (∃ st2, register_file c10r ⟨.val 3, .val 0, .val 1⟩ "N" (.val 32) [] =
        .ok (⟨"N", ⟨.val 3, .val 0, .val 1⟩, [], .val 32⟩, st2) ∧
      alistGet st2.memories "N" =
        some (.mk "N" ⟨.val 3, .val 0, .val 1⟩ (.val 32) [] []) ∧
      (∀ k, k ≠ "N" → alistGet st2.memories k = alistGet c10r.memories k)) ∧
    (∃ st2, address_space c10f "N" (.val 8) (.val 4) none [] =
        .ok (⟨"N", .val 4, .val 1, .val 8, []⟩, st2) ∧
      alistGet st2.memories "N" =
        some (.mk "N" ⟨.val 4, .val 0, .val 1⟩ (.val 8) [] []) ∧
      (∀ k, k ≠ "N" → alistGet st2.memories k = alistGet c10f.memories k)) ∧
    (∃ st2, register c10f "N" (.val 32) [] = .ok (⟨"N", [], none, .val 32⟩, st2) ∧
      alistGet st2.memories "N" =
        some (.mk "N" ⟨.val 0, .val 0, .val 1⟩ (.val 32) [] []) ∧
      (∀ k, k ≠ "N" → alistGet st2.memories k = alistGet c10f.memories k)) := by
  have T := claim10_shared_memory_table initState "N"
  exact ⟨T.1 (.val 8) (.val 4) [] (.val 32) (.val 32) [] none _ _ rfl rfl rfl,
    T.2.1 (.val 8) (.val 4) [] ⟨.val 3, .val 0, .val 1⟩ (.val 32) (.val 32) [] none _ _
      rfl rfl rfl,
    T.2.2.1 (.val 32) [] (.val 8) (.val 4) [] (.val 8) (.val 4) (.val 1) none _ _
      rfl rfl rfl rfl rfl,
    T.2.2.2.1 (.val 32) [] ⟨.val 3, .val 0, .val 1⟩ (.val 32) (.val 32) [] _ _
      rfl rfl rfl,
    T.2.2.2.2.1 ⟨.val 3, .val 0, .val 1⟩ (.val 32) [] (.val 8) (.val 4) [] (.val 8)
      (.val 4) (.val 1) none _ _ rfl rfl rfl rfl rfl,
    T.2.2.2.2.2 ⟨.val 3, .val 0, .val 1⟩ (.val 32) [] (.val 32) (.val 32) [] _ _
      rfl rfl rfl⟩
